import Mathlib

/-!
Verification of the tinyWAL engine (`wal.go`) against its natural-language
specification.  The Go source is shallowly embedded: byte strings are
`List Nat` (each entry a byte value), file names are `List Char`, machine
integers are `Nat`/`Int` with explicit reductions modulo `2 ^ 32` / `2 ^ 64`
where the Go code casts, and fallible filesystem calls are driven by an
explicit error oracle (`Env`) so that error propagation can be stated.
-/

namespace TinyWal

/-! ## Little-endian integers (`encoding/binary`) -/

/-- Little-endian byte encoding of width `w`, embedding
`binary.LittleEndian.PutUint32` / `PutUint64`: byte `i` is
`(n / 256 ^ i) % 256`, so the value is implicitly reduced mod `256 ^ w`. -/
def leBytes : Nat → Nat → List Nat
  | 0, _ => []
  | w + 1, n => (n % 256) :: leBytes w (n / 256)

/-- Little-endian byte decoding, embedding `binary.LittleEndian.Uint32` /
`Uint64` on a byte list. -/
def leDecode : List Nat → Nat
  | [] => 0
  | b :: rest => b + 256 * leDecode rest

theorem leBytes_length (w n : Nat) : (leBytes w n).length = w := by
  induction w generalizing n with
  | zero => rfl
  | succ w ih => simp [leBytes, ih]

theorem leDecode_leBytes (w n : Nat) : leDecode (leBytes w n) = n % 256 ^ w := by
  induction w generalizing n with
  | zero => simp [leBytes, leDecode, Nat.mod_one]
  | succ w ih =>
      simp only [leBytes, leDecode, ih]
      rw [pow_succ, Nat.mul_comm (256 ^ w) 256, Nat.mod_mul]

/-! ## CRC-32, IEEE polynomial (`hash/crc32.ChecksumIEEE`)

Go's table-driven implementation computes the standard reflected CRC-32;
we embed the equivalent bit-at-a-time algorithm with the reflected
polynomial `0xEDB88320`, initial value `0xFFFFFFFF` and final inversion. -/

/-- One bit step of the reflected CRC-32 computation. -/
def crc32Round (crc : Nat) : Nat :=
  if crc % 2 = 1 then (crc / 2) ^^^ 0xEDB88320 else crc / 2

/-- Fold one input byte into the running CRC (eight bit steps). -/
def crc32Byte (crc b : Nat) : Nat :=
  (crc32Round ∘ crc32Round ∘ crc32Round ∘ crc32Round ∘
   crc32Round ∘ crc32Round ∘ crc32Round ∘ crc32Round) (crc ^^^ (b % 256))

/-- CRC-32 (IEEE) of a byte string, embedding `crc32.ChecksumIEEE(data)`. -/
def crc32 (data : List Nat) : Nat :=
  0xFFFFFFFF ^^^ data.foldl crc32Byte 0xFFFFFFFF

/-! ## The record bytes written by `(*WAL).Write`

`Write` (after the rotation/retention step) seeks to the end of the active
segment — the returned byte position is the record's `offset` — computes the
CRC of the payload, builds the three little-endian buffers with
`PutUint64(uint64(offset))`, `PutUint32(uint32(len(data)))`,
`PutUint32(checksum)`, and then issues four sequential `File.Write` calls:
`offsetBytes`, `lenBytes`, `data`, `checksumBytes`. -/

/-- The bytes of one encoded record as `(*WAL).Write` lays them out,
as a function of the record's `offset` value and the payload. -/
def encodeRecord (offset : Nat) (data : List Nat) : List Nat :=
  leBytes 8 (offset % 2 ^ 64) ++ leBytes 4 (data.length % 2 ^ 32) ++
    data ++ leBytes 4 (crc32 data)

/-- The active segment's content after the four `File.Write` calls of
`(*WAL).Write`, step by step: the seek-to-end offset is the current content
length, and the four buffers are appended in program order. -/
def writeRecordBytes (content data : List Nat) : List Nat :=
  let offset := content.length
  let checksum := crc32 data
  let offsetBytes := leBytes 8 (offset % 2 ^ 64)
  let lenBytes := leBytes 4 (data.length % 2 ^ 32)
  let checksumBytes := leBytes 4 checksum
  let c1 := content ++ offsetBytes
  let c2 := c1 ++ lenBytes
  let c3 := c2 ++ data
  c3 ++ checksumBytes

/-- The record layout claimed by the specification (§4.2), written from the
spec's words alone: `offset:8 | length:4 | checksum:4 | payload | newline`,
all integers little-endian, checksum = CRC-32 over the payload. -/
def specRecordLayout (offset : Nat) (payload : List Nat) : List Nat :=
  leBytes 8 (offset % 2 ^ 64) ++ leBytes 4 (payload.length % 2 ^ 32) ++
    leBytes 4 (crc32 payload) ++ payload ++ [10]

/-- Decode errors of the record codec, as named by the specification. -/
inductive DecodeError where
  | tooShort
  | checksumMismatch
deriving DecidableEq

/-- Modelled from the spec: the repository's recovery/decode path
(`Recover`) is not present in `src`; §4.2 of the spec defines
`decode(line)`: fail with `TooShort` when fewer than 16 bytes are present,
otherwise split the 16-byte header (offset:8 LE, length:4 LE,
checksum:4 LE) from the payload, recompute CRC-32 over the payload slice
and fail with `ChecksumMismatch` when it disagrees with the stored
checksum; on success return the offset and the payload. -/
def decodeRecord (line : List Nat) : Except DecodeError (Nat × List Nat) :=
  if line.length < 16 then .error .tooShort
  else
    let offset := leDecode (line.take 8)
    let stored := leDecode ((line.drop 12).take 4)
    let payload := line.drop 16
    if crc32 payload ≠ stored then .error .checksumMismatch
    else .ok (offset, payload)

/-- The little-endian 32-bit value stored in a record's length field
(bytes 8–11 of the record). -/
def lengthField (record : List Nat) : Nat :=
  leDecode ((record.drop 8).take 4)

/-- The little-endian 64-bit value stored in a record's offset field
(bytes 0–7 of the record). -/
def offsetField (record : List Nat) : Nat :=
  leDecode (record.take 8)

theorem writeRecordBytes_eq (content data : List Nat) :
    writeRecordBytes content data = content ++ encodeRecord content.length data := by
  simp [writeRecordBytes, encodeRecord, List.append_assoc]

instance {ε α : Type} [DecidableEq ε] [DecidableEq α] : DecidableEq (Except ε α) := fun
  | .error e, .error f =>
    if h : e = f then .isTrue (by rw [h]) else .isFalse (by intro hh; injection hh; exact h ‹_›)
  | .error _, .ok _ => .isFalse (by intro h; exact Except.noConfusion h)
  | .ok _, .error _ => .isFalse (by intro h; exact Except.noConfusion h)
  | .ok a, .ok b =>
    if h : a = b then .isTrue (by rw [h]) else .isFalse (by intro hh; injection hh; exact h ‹_›)

theorem take_len_append {α : Type} (l₁ l₂ : List α) (n : Nat) (h : l₁.length = n) :
    (l₁ ++ l₂).take n = l₁ := by
  induction l₁ generalizing n with
  | nil => subst h; simp
  | cons a as ih =>
      cases n with
      | zero => simp at h
      | succ m => simp only [List.cons_append, List.take_succ_cons]
                  rw [ih m (by simpa using h)]

theorem drop_len_append {α : Type} (l₁ l₂ : List α) (n : Nat) (h : l₁.length = n) :
    (l₁ ++ l₂).drop n = l₂ := by
  induction l₁ generalizing n with
  | nil => subst h; simp
  | cons a as ih =>
      cases n with
      | zero => simp at h
      | succ m => simp only [List.cons_append, List.drop_succ_cons]
                  exact ih m (by simpa using h)

theorem drop_of_len_le {α : Type} (l : List α) (n : Nat) (h : l.length ≤ n) :
    l.drop n = [] := by
  induction l generalizing n with
  | nil => simp
  | cons a as ih =>
      cases n with
      | zero => simp at h
      | succ m => simpa using ih m (by simpa using h)

/-! ## Claim C2 — the on-disk record layout -/

/-- C2 counterexample: the spec's claimed layout
`offset:8 | length:4 | checksum:4 | payload | newline` does not match what
`Write` produces for offset 0 and the one-byte payload `[97]`: the code
writes the checksum after the payload and writes no delimiter byte. -/
theorem c2_layout_counterexample :
    writeRecordBytes [] [97] ≠ specRecordLayout 0 [97] := by decide

/-- C2 (amended): for every starting content and payload, the bytes
appended by `Write` are, in order: the offset (the previous content length)
as 8 little-endian bytes, the payload length reduced mod `2 ^ 32` as 4
little-endian bytes, the raw payload bytes, then the CRC-32 (IEEE)
checksum of the payload alone as 4 little-endian bytes; no delimiter byte
is written. -/
theorem c2_record_layout (content data : List Nat) :
    writeRecordBytes content data =
      content ++ leBytes 8 (content.length % 2 ^ 64) ++
        leBytes 4 (data.length % 2 ^ 32) ++ data ++ leBytes 4 (crc32 data) := by
  simp [writeRecordBytes, List.append_assoc]

/-! ## Claim C9 — codec round-trip -/

/-- C9 counterexample: decoding (as the spec defines decode) the bytes the
code writes for offset 0 and payload `[0]` does not return `(0, [0])`; at
this input the stored-checksum position the decoder reads holds
payload/CRC bytes and decoding fails with a checksum mismatch.  (This
refutes the claim's "for every payload"; it does not establish failure for
every nonempty payload — a long payload could in principle place bytes in
the decoder's checksum slot that match spuriously, making decode return a
mis-framed success instead.) -/
theorem c9_roundtrip_counterexample :
    decodeRecord (writeRecordBytes [] [0]) ≠ .ok (0, [0]) ∧
    decodeRecord (writeRecordBytes [] [0]) = .error .checksumMismatch := by
  decide

/-- C9 (amended): the round-trip does not hold for every payload; it does
hold for the empty payload, where the code's trailing-checksum layout
happens to coincide with the spec's header layout: for every offset below
`2 ^ 64`, decoding the encoding of `(offset, [])` succeeds and returns
offset and empty payload.  For the one-byte payload `[0]` the round-trip
fails (see the counterexample), because the code writes the checksum after
the payload rather than in the header and writes no delimiter. -/
theorem c9_roundtrip_empty (off : Nat) (h : off < 2 ^ 64) :
    decodeRecord (encodeRecord off []) = .ok (off, []) := by
  have hmod : off % 2 ^ 64 = off := Nat.mod_eq_of_lt h
  have h1 : leBytes 4 (([] : List Nat).length % 2 ^ 32) = [0, 0, 0, 0] := rfl
  have h2 : leBytes 4 (crc32 []) = [0, 0, 0, 0] := rfl
  have henc : encodeRecord off [] = leBytes 8 off ++ [0, 0, 0, 0, 0, 0, 0, 0] := by
    simp only [encodeRecord, hmod, h1, h2, List.nil_append]
    simp
  have hlen : (encodeRecord off []).length = 16 := by
    simp [henc, leBytes_length]
  have htake : (encodeRecord off []).take 8 = leBytes 8 off :=
    henc ▸ take_len_append _ _ 8 (leBytes_length 8 off)
  have hdrop12 : (encodeRecord off []).drop 12 = [0, 0, 0, 0] := by
    rw [henc, show (leBytes 8 off ++ [0, 0, 0, 0, 0, 0, 0, 0]) =
      ((leBytes 8 off ++ [0, 0, 0, 0]) ++ [0, 0, 0, 0]) by simp]
    exact drop_len_append _ _ 12 (by simp [leBytes_length])
  have hdrop16 : (encodeRecord off []).drop 16 = [] := by
    rw [henc]
    exact drop_of_len_le _ _ (by simp [leBytes_length])
  rw [decodeRecord, hlen]
  rw [if_neg (by norm_num)]
  simp only [htake, hdrop12, hdrop16]
  rw [if_neg (by decide)]
  rw [leDecode_leBytes]
  rw [show (256 : Nat) ^ 8 = 2 ^ 64 by norm_num, hmod]

/-- C9 witness: the amended round-trip at offset 3 and empty payload. -/
theorem c9_roundtrip_empty_witness :
    3 < 2 ^ 64 ∧ decodeRecord (encodeRecord 3 []) = .ok (3, []) :=
  ⟨by norm_num, c9_roundtrip_empty 3 (by norm_num)⟩

/-! ## Claim C10 — length-field truncation -/

/-- C10: the length field stored in a record's header is the payload
length reduced modulo `2 ^ 32`; for payloads of `2 ^ 32` bytes or more the
stored field therefore differs from the true length. -/
theorem c10_length_field_mod (off : Nat) (data : List Nat) :
    lengthField (encodeRecord off data) = data.length % 2 ^ 32 ∧
      (2 ^ 32 ≤ data.length → data.length % 2 ^ 32 ≠ data.length) := by
  constructor
  · have hdrop : (encodeRecord off data).drop 8 =
        leBytes 4 (data.length % 2 ^ 32) ++ (data ++ leBytes 4 (crc32 data)) := by
      rw [encodeRecord, List.append_assoc]
      exact drop_len_append _ _ 8 (leBytes_length _ _)
    rw [lengthField, hdrop, take_len_append _ _ 4 (leBytes_length _ _),
      leDecode_leBytes]
    norm_num
  · intro hge
    have hlt : data.length % 2 ^ 32 < 2 ^ 32 := Nat.mod_lt _ (by norm_num)
    omega

/-- C10 witness: a payload of exactly `2 ^ 32` zero bytes stores length
field 0, which differs from its true length. -/
theorem c10_length_field_mod_witness :
    lengthField (encodeRecord 0 (List.replicate (2 ^ 32) 0)) ≠
      (List.replicate (2 ^ 32) (0 : Nat)).length := by
  have hlen : (List.replicate (2 ^ 32) (0 : Nat)).length = 2 ^ 32 :=
    List.length_replicate _ _
  have h := c10_length_field_mod 0 (List.replicate (2 ^ 32) 0)
  have h2 := h.2 (Nat.le_of_eq hlen.symm)
  exact h.1.symm ▸ h2

/-! ## Segment file names (`createNewLogFile`, `getSegmentInfos`)

`createNewLogFile` builds the active file's path as
`logDir + "/" + filePrefix + "-" + strconv.FormatInt(timestamp, 10)` with
`filePrefix = "segment-"`, so the file's base name carries a double hyphen:
`segment--<timestamp>`.  `getSegmentInfos` keeps names with the prefix and
parses `strings.ReplaceAll(name, filePrefix, "")` with
`strconv.ParseInt(·, 10, 64)`.  File names are modelled as `List Char`. -/

/-- The Go constant `filePrefix = "segment-"` (named `segFilePre` here). -/
def segFilePre : List Char := ['s', 'e', 'g', 'm', 'e', 'n', 't', '-']

/-- The decimal digit character for `d < 10` (`'0' + d`). -/
def digitChar (d : Nat) : Char := Char.ofNat (48 + d)

/-- Fuel-driven big-endian decimal digits of a natural number, embedding
the base-10 case of `strconv.FormatInt`'s digit loop. -/
def natDigitsAux : Nat → Nat → List Char
  | 0, _ => []
  | fuel + 1, n =>
      if n < 10 then [digitChar n]
      else natDigitsAux fuel (n / 10) ++ [digitChar (n % 10)]

/-- Decimal digits of a natural number (`strconv.FormatUint`-style). -/
def natDigits (n : Nat) : List Char := natDigitsAux (n + 1) n

/-- Embeds `strconv.FormatInt(i, 10)`. -/
def formatInt (i : Int) : List Char :=
  if i < 0 then '-' :: natDigits i.natAbs else natDigits i.natAbs

/-- The base name of the segment file `createNewLogFile` opens at model
time `ts`: `filePrefix + "-" + strconv.FormatInt(ts, 10)`, i.e. the name
carries a double hyphen before the timestamp digits. -/
def segmentName (ts : Int) : List Char := segFilePre ++ '-' :: formatInt ts

/-- The numeric value of one decimal digit character, as
`strconv.ParseUint`'s per-character conversion (`c - '0'`, rejected unless
it is below 10). -/
def digitVal (c : Char) : Option Nat :=
  if 48 ≤ c.toNat ∧ c.toNat ≤ 57 then some (c.toNat - 48) else none

/-- Left-to-right accumulation of decimal digits
(`strconv.ParseUint`'s main loop); fails on any non-digit character. -/
def parseDigitsAux : Nat → List Char → Option Nat
  | acc, [] => some acc
  | acc, c :: rest =>
      match digitVal c with
      | some d => parseDigitsAux (acc * 10 + d) rest
      | none => none

/-- Digit-string value; the empty string is a syntax error
(`strconv.ParseUint`). -/
def parseDigits (s : List Char) : Option Nat :=
  match s with
  | [] => none
  | _ => parseDigitsAux 0 s

/-- Embeds `strconv.ParseInt(s, 10, 64)`: optional sign, decimal digits,
and the `int64` range check (`≤ 2 ^ 63` magnitude for negative values,
`< 2 ^ 63` for positive ones). -/
def parseInt10 (s : List Char) : Option Int :=
  match s with
  | [] => none
  | c :: rest =>
      if c = '-' then
        (parseDigits rest).bind fun n =>
          if n > 2 ^ 63 then none else some (-(n : Int))
      else if c = '+' then
        (parseDigits rest).bind fun n =>
          if n ≥ 2 ^ 63 then none else some ((n : Int))
      else
        (parseDigits s).bind fun n =>
          if n ≥ 2 ^ 63 then none else some ((n : Int))

/-- Fuel-driven embedding of `strings.ReplaceAll(s, pat, rep)` for a
non-empty pattern: scan left to right, replacing non-overlapping
occurrences.  The fuel is the length of the scanned string (each step
consumes at least one character). -/
def replaceAllAux (pat rep : List Char) : Nat → List Char → List Char
  | _, [] => []
  | 0, s => s
  | fuel + 1, c :: rest =>
      if pat.isPrefixOf (c :: rest) ∧ pat ≠ [] then
        rep ++ replaceAllAux pat rep fuel ((c :: rest).drop pat.length)
      else c :: replaceAllAux pat rep fuel rest

/-- Embeds `strings.ReplaceAll(s, pat, rep)`. -/
def replaceAll (s pat rep : List Char) : List Char :=
  replaceAllAux pat rep s.length s

/-! ## Segment descriptors and retention (`getSegmentInfos`,
`deleteOldSegments`, `processOldSegments`) -/

/-- A parsed segment descriptor (the source's `segmentInfo` struct). -/
structure SegmentInfo where
  name : List Char
  timestamp : Int
deriving DecidableEq

/-- Embeds `getSegmentInfos`: keep only names carrying the recognized
prefix, parse `ReplaceAll(name, filePrefix, "")` as a base-10 `int64`;
a recognized-prefix name whose stripped form fails to parse aborts the
whole enumeration with the parse error (`none`). -/
def getSegmentInfos (segments : List (List Char)) : Option (List SegmentInfo) :=
  match segments with
  | [] => some []
  | seg :: rest =>
      if segFilePre.isPrefixOf seg then
        match parseInt10 (replaceAll seg segFilePre []) with
        | none => none
        | some ts => (getSegmentInfos rest).map (fun infos => ⟨seg, ts⟩ :: infos)
      else getSegmentInfos rest

/-- Stable insertion of one descriptor into a timestamp-sorted list;
together with `sortByTs` this embeds `sort.SliceStable` with
`less(i, j) = Timestamp_i < Timestamp_j` (equal timestamps keep their
original relative order). -/
def insertByTs (x : SegmentInfo) : List SegmentInfo → List SegmentInfo
  | [] => [x]
  | y :: ys => if y.timestamp < x.timestamp then y :: insertByTs x ys else x :: y :: ys

/-- Stable sort of descriptors by parsed timestamp ascending. -/
def sortByTs : List SegmentInfo → List SegmentInfo
  | [] => []
  | x :: xs => insertByTs x (sortByTs xs)

/-- Model of a Go `error` value surfaced by the engine. -/
inductive WalError where
  | io (code : Nat)
  | parseError
deriving DecidableEq

/-- The filesystem operations the engine performs, recorded as a trace. -/
inductive FsOp where
  | mkdir
  | readDir
  | stat
  | openFile (name : List Char)
  | seek
  | fileWrite
  | remove (name : List Char)
  | sync
deriving DecidableEq

/-- Error oracle: the outcome of each kind of filesystem call (`none` =
success; removals are resolved per file name).  This is the only
abstraction over the real filesystem's failure behavior. -/
structure Env where
  mkdirErr : Option Nat
  readDirErr : Option Nat
  statErr : Option Nat
  openErr : Option Nat
  seekErr : Option Nat
  writeErr : Option Nat
  syncErr : Option Nat
  removeErr : List Char → Option Nat

/-- The all-success oracle. -/
def okEnv : Env := ⟨none, none, none, none, none, none, none, fun _ => none⟩

theorem okEnv_mkdirErr : okEnv.mkdirErr = none := rfl

theorem okEnv_readDirErr : okEnv.readDirErr = none := rfl

theorem okEnv_statErr : okEnv.statErr = none := rfl

theorem okEnv_openErr : okEnv.openErr = none := rfl

theorem okEnv_seekErr : okEnv.seekErr = none := rfl

theorem okEnv_writeErr : okEnv.writeErr = none := rfl

theorem okEnv_syncErr : okEnv.syncErr = none := rfl

theorem okEnv_removeErr (nm : List Char) : okEnv.removeErr nm = none := rfl

/-- The engine state (the `WAL` struct) together with the log directory's
contents.  `dir` lists the directory's files (base name and bytes);
`os.ReadDir`'s listing order is abstracted as the stored entry order.
`currentName`/`currentContent` model the open `currentLog` handle: a Unix
file handle keeps working after its directory entry is unlinked, so the
handle's content is tracked separately and written through to the matching
`dir` entry while one exists. -/
structure WalState where
  dir : List (List Char × List Nat)
  currentName : List Char
  currentContent : List Nat
  maxSegments : Int
  segmentSize : Int
deriving DecidableEq

/-- Embeds `getAllSegments`: `os.ReadDir` on the log directory, keeping
every non-directory entry's name (the model's `dir` holds files only). -/
def getAllSegments (env : Env) (st : WalState) :
    Except WalError (List (List Char)) × List FsOp :=
  match env.readDirErr with
  | some e => (.error (.io e), [.readDir])
  | none => (.ok (st.dir.map Prod.fst), [.readDir])

/-- The deletion loop of `deleteOldSegments`: walk the sorted descriptors,
breaking once `count < maxSegments`, `os.Remove`-ing each visited file and
decrementing `count`; a failed removal aborts with its error.  Returns the
removed names. -/
def removeLoop (env : Env) (maxSeg : Int) :
    Int → List SegmentInfo → Except WalError (List (List Char)) × List FsOp
  | _, [] => (.ok [], [])
  | count, seg :: rest =>
      if count < maxSeg then (.ok [], [])
      else
        match env.removeErr seg.name with
        | some e => (.error (.io e), [.remove seg.name])
        | none =>
            match removeLoop env maxSeg (count - 1) rest with
            | (.error e, tr) => (.error e, .remove seg.name :: tr)
            | (.ok deleted, tr) => (.ok (seg.name :: deleted), .remove seg.name :: tr)

/-- Embeds `deleteOldSegments`: parse the descriptors, stable-sort them by
parsed timestamp ascending, then run the deletion loop with `count`
starting from the total number of names passed in (valid segment names and
other files alike). -/
def deleteOldSegments (env : Env) (maxSeg : Int) (segments : List (List Char)) :
    Except WalError (List (List Char)) × List FsOp :=
  match getSegmentInfos segments with
  | none => (.error .parseError, [])
  | some infos => removeLoop env maxSeg (segments.length : Int) (sortByTs infos)

/-- Embeds `processOldSegments`: a no-op when the directory holds fewer
files than `maxSegments`, otherwise delete old segments. -/
def processOldSegments (env : Env) (maxSeg : Int) (segments : List (List Char)) :
    Except WalError (List (List Char)) × List FsOp :=
  if (segments.length : Int) < maxSeg then (.ok [], [])
  else deleteOldSegments env maxSeg segments

/-- Directory contents lookup by file name (`os.OpenFile` finding an
existing file). -/
def lookupContent : List (List Char × List Nat) → List Char → Option (List Nat)
  | [], _ => none
  | (n, c) :: rest, name => if n = name then some c else lookupContent rest name

/-- Remove the named entries from the directory (the effect of the
`os.Remove` calls issued by the deletion loop). -/
def removeEntries : List (List Char × List Nat) → List (List Char) →
    List (List Char × List Nat)
  | [], _ => []
  | e :: rest, names =>
      if e.1 ∈ names then removeEntries rest names else e :: removeEntries rest names

/-- Write-through of the active handle's content to its directory entry
(the handle and the entry alias the same file while the entry exists). -/
def updateEntry : List (List Char × List Nat) → List Char → List Nat →
    List (List Char × List Nat)
  | [], _, _ => []
  | e :: rest, name, content =>
      if e.1 = name then (name, content) :: updateEntry rest name content
      else e :: updateEntry rest name content

/-- The `errno` value of `EEXIST`, the error `os.Mkdir` returns when the
directory already exists. -/
def eexist : Nat := 17

/-- Embeds `createNewLogFile` at model time `ts`: `os.OpenFile` with
`O_RDWR|O_CREATE|O_APPEND` on `segmentName ts`.  A pre-existing file of
the same name (same-second collision) is reopened and appended to;
otherwise an empty file is created.  On error the current handle is left
unchanged. -/
def createNewLogFile (env : Env) (st : WalState) (ts : Int) :
    Except WalError WalState × List FsOp :=
  let name := segmentName ts
  match env.openErr with
  | some e => (.error (.io e), [.openFile name])
  | none =>
      match lookupContent st.dir name with
      | some c =>
          (.ok { st with currentName := name, currentContent := c }, [.openFile name])
      | none =>
          (.ok { st with currentName := name,
                         currentContent := [],
                         dir := st.dir ++ [(name, [])] }, [.openFile name])

/-- Embeds `rotateLogIfSizeExceeds`: list the directory, run retention,
`Stat` the active handle, and create a new segment when the statted size
strictly exceeds `segmentSize`.  Mirroring the source: the return value of
`createNewLogFile` is discarded — `w.createNewLogFile()` is called without
capturing its error — so a failed creation leaves the old active segment
in place and the rotation step still reports success; and no `Sync` is
issued anywhere on this path. -/
def rotateLogIfSizeExceeds (env : Env) (st : WalState) (ts : Int) :
    Except WalError WalState × List FsOp :=
  match getAllSegments env st with
  | (.error e, tr) => (.error e, tr)
  | (.ok files, tr1) =>
      match processOldSegments env st.maxSegments files with
      | (.error e, tr2) => (.error e, tr1 ++ tr2)
      | (.ok deleted, tr2) =>
          let st1 := { st with dir := removeEntries st.dir deleted }
          match env.statErr with
          | some e => (.error (.io e), tr1 ++ tr2 ++ [.stat])
          | none =>
              if (st1.currentContent.length : Int) > st.segmentSize then
                match createNewLogFile env st1 ts with
                | (.ok st2, tr3) => (.ok st2, tr1 ++ tr2 ++ [.stat] ++ tr3)
                | (.error _, tr3) => (.ok st1, tr1 ++ tr2 ++ [.stat] ++ tr3)
              else (.ok st1, tr1 ++ tr2 ++ [.stat])

/-- Embeds `(*WAL).Write` (the mutex, the serialization point, carries no
state relevant to the claims): rotate/retain first, then
`Seek(0, io.SeekEnd)` — whose result is the record's offset — then the
four buffer writes.  One oracle drives all four `File.Write` calls: when
it fails the first call returns the error, as each call's error in the
source returns immediately. -/
def walWrite (env : Env) (st : WalState) (ts : Int) (data : List Nat) :
    Except WalError WalState × List FsOp :=
  match rotateLogIfSizeExceeds env st ts with
  | (.error e, tr) => (.error e, tr)
  | (.ok st1, tr1) =>
      match env.seekErr with
      | some e => (.error (.io e), tr1 ++ [.seek])
      | none =>
          match env.writeErr with
          | some e => (.error (.io e), tr1 ++ [.seek, .fileWrite])
          | none =>
              let content := writeRecordBytes st1.currentContent data
              (.ok { st1 with currentContent := content,
                              dir := updateEntry st1.dir st1.currentName content },
               tr1 ++ [.seek, .fileWrite, .fileWrite, .fileWrite, .fileWrite])

/-- Embeds `New`: `os.Mkdir(config.LogDir, 0755)` — whose error, the
"already exists" one included, is returned as-is — then the first
`createNewLogFile`.  `dirExists` says whether the log directory already
exists; a successfully created directory is empty.  (The background sync
goroutine only ever calls `Sync` under the lock and carries no state.) -/
def walNew (env : Env) (dirExists : Bool) (maxSeg segSize ts : Int) :
    Except WalError WalState × List FsOp :=
  if dirExists then (.error (.io eexist), [.mkdir])
  else
    match env.mkdirErr with
    | some e => (.error (.io e), [.mkdir])
    | none =>
        let st : WalState := { dir := [], currentName := [], currentContent := [],
                               maxSegments := maxSeg, segmentSize := segSize }
        match createNewLogFile env st ts with
        | (.error e, tr) => (.error e, .mkdir :: tr)
        | (.ok st1, tr) => (.ok st1, .mkdir :: tr)

/-- Embeds `(*WAL).Sync`: `w.currentLog.Sync()`, a single `sync` call on
the active handle. -/
def walSync (env : Env) : Except WalError Unit × List FsOp :=
  match env.syncErr with
  | some e => (.error (.io e), [.sync])
  | none => (.ok (), [.sync])

/-! ## Decimal format/parse round-trip

`createNewLogFile` formats the timestamp with `strconv.FormatInt` and
`getSegmentInfos` parses the `ReplaceAll`-stripped name with
`strconv.ParseInt`; because the generated name is `segment--<digits>`,
stripping the prefix `segment-` leaves `-<digits>` and the parsed
timestamp is the *negation* of the one the file was created with. -/

theorem parseDigitsAux_append (acc : Nat) (xs ys : List Char) :
    parseDigitsAux acc (xs ++ ys) =
      (parseDigitsAux acc xs).bind fun v => parseDigitsAux v ys := by
  induction xs generalizing acc with
  | nil => simp [parseDigitsAux]
  | cons c rest ih =>
      simp only [List.cons_append, parseDigitsAux]
      cases digitVal c with
      | none => simp
      | some d => simp [ih]

theorem digitVal_digitChar (d : Nat) (h : d < 10) :
    digitVal (digitChar d) = some d := by
  interval_cases d <;> rfl

theorem parse_natDigitsAux (fuel : Nat) :
    ∀ n acc, n < fuel →
      parseDigitsAux acc (natDigitsAux fuel n) =
        some (acc * 10 ^ (natDigitsAux fuel n).length + n) := by
  induction fuel with
  | zero => intro n acc h; exact absurd h (Nat.not_lt_zero n)
  | succ f ih =>
      intro n acc h
      by_cases h10 : n < 10
      · simp only [natDigitsAux, if_pos h10]
        simp [parseDigitsAux, digitVal_digitChar n h10]
      · simp only [natDigitsAux, if_neg h10]
        have hdiv : n / 10 < f := by omega
        rw [parseDigitsAux_append, ih (n / 10) acc hdiv]
        have hd : digitVal (digitChar (n % 10)) = some (n % 10) :=
          digitVal_digitChar _ (Nat.mod_lt n (by norm_num))
        simp only [Option.some_bind, parseDigitsAux, hd, List.length_append,
          List.length_cons, List.length_nil]
        congr 1
        rw [pow_succ, ← mul_assoc]
        have harith : ∀ q : Nat, (q + n / 10) * 10 + n % 10 = q * 10 + n := by
          intro q; omega
        exact harith _

theorem natDigits_ne_nil (n : Nat) : natDigits n ≠ [] := by
  unfold natDigits natDigitsAux
  by_cases h : n < 10
  · simp [h]
  · simp [h]

theorem parseDigits_natDigits (n : Nat) : parseDigits (natDigits n) = some n := by
  have h := parse_natDigitsAux (n + 1) n 0 (Nat.lt_succ_self n)
  have hnd : natDigitsAux (n + 1) n = natDigits n := rfl
  rw [hnd] at h
  cases hd : natDigits n with
  | nil => exact absurd hd (natDigits_ne_nil n)
  | cons c cs =>
      rw [hd] at h
      simpa [parseDigits] using h

theorem natDigitsAux_mem (fuel : Nat) :
    ∀ n c, c ∈ natDigitsAux fuel n → ∃ d, d < 10 ∧ c = digitChar d := by
  induction fuel with
  | zero => intro n c h; simp [natDigitsAux] at h
  | succ f ih =>
      intro n c h
      by_cases h10 : n < 10
      · simp [natDigitsAux, h10] at h
        exact ⟨n, h10, h⟩
      · simp only [natDigitsAux, if_neg h10, List.mem_append,
          List.mem_singleton] at h
        rcases h with h | h
        · exact ih _ _ h
        · exact ⟨n % 10, Nat.mod_lt _ (by norm_num), h⟩

theorem digitChar_ne_s (d : Nat) (h : d < 10) : digitChar d ≠ 's' := by
  interval_cases d <;> decide

theorem isPre_append_self (l r : List Char) : l.isPrefixOf (l ++ r) = true := by
  induction l with
  | nil => simp [List.isPrefixOf]
  | cons a as ih => simp [List.isPrefixOf, ih]

theorem isPre_cons_false (c : Char) (rest : List Char) (h : c ≠ 's') :
    segFilePre.isPrefixOf (c :: rest) = false := by
  show (('s' :: ['e', 'g', 'm', 'e', 'n', 't', '-']).isPrefixOf (c :: rest)) = false
  have hb : ('s' == c) = false := beq_eq_false_iff_ne.mpr (Ne.symm h)
  simp [List.isPrefixOf, hb]

theorem replaceAllAux_strip (fuel : Nat) (rest : List Char) :
    replaceAllAux segFilePre [] (fuel + 1) (segFilePre ++ rest) =
      replaceAllAux segFilePre [] fuel rest := by
  have hs : segFilePre ++ rest = 's' :: (['e', 'g', 'm', 'e', 'n', 't', '-'] ++ rest) := rfl
  rw [hs, replaceAllAux, if_pos]
  · have hdrop : ('s' :: (['e', 'g', 'm', 'e', 'n', 't', '-'] ++ rest)).drop
        segFilePre.length = rest := by
      rw [← hs]
      exact drop_len_append _ _ _ rfl
    rw [hdrop]
    simp
  · constructor
    · rw [← hs]; exact isPre_append_self _ _
    · intro hc; exact List.noConfusion hc

theorem replaceAllAux_no_s (fuel : Nat) :
    ∀ l : List Char, (∀ c ∈ l, c ≠ 's') →
      replaceAllAux segFilePre [] fuel l = l := by
  induction fuel with
  | zero => intro l _; cases l <;> rfl
  | succ f ih =>
      intro l h
      cases l with
      | nil => rfl
      | cons c rest =>
          rw [replaceAllAux, if_neg]
          · rw [ih rest (fun x hx => h x (List.mem_cons_of_mem _ hx))]
          · intro hc
            have hp := hc.1
            rw [isPre_cons_false c rest (h c (List.mem_cons_self _ _))] at hp
            exact Bool.noConfusion hp

theorem replaceAll_segmentName (n : Nat) :
    replaceAll (segmentName (n : Int)) segFilePre [] = '-' :: natDigits n := by
  have hfmt : formatInt (n : Int) = natDigits n := by
    simp [formatInt, Int.natAbs_ofNat]
  have hname : segmentName (n : Int) = segFilePre ++ '-' :: natDigits n := by
    rw [segmentName, hfmt]
  rw [replaceAll, hname]
  have hlen : (segFilePre ++ '-' :: natDigits n).length =
      ((natDigits n).length + 8) + 1 := by
    simp [segFilePre]
  rw [hlen, replaceAllAux_strip]
  apply replaceAllAux_no_s
  intro c hc
  rcases List.mem_cons.mp hc with rfl | hmem
  · decide
  · obtain ⟨d, hd, rfl⟩ := natDigitsAux_mem _ _ _ hmem
    exact digitChar_ne_s d hd

theorem parseSegmentName (n : Nat) (h : n ≤ 2 ^ 63) :
    parseInt10 (replaceAll (segmentName (n : Int)) segFilePre []) =
      some (-(n : Int)) := by
  rw [replaceAll_segmentName]
  have hne : ¬ (n > 2 ^ 63) := by omega
  cases hd : natDigits n with
  | nil => exact absurd hd (natDigits_ne_nil n)
  | cons c cs =>
      have hp : parseDigits (c :: cs) = some n := hd ▸ parseDigits_natDigits n
      simp [parseInt10, hp, hne]
      omega

theorem segmentName_inj (a b : Nat) (h : segmentName (a : Int) = segmentName (b : Int)) :
    a = b := by
  have hfa : formatInt (a : Int) = natDigits a := by simp [formatInt, Int.natAbs_ofNat]
  have hfb : formatInt (b : Int) = natDigits b := by simp [formatInt, Int.natAbs_ofNat]
  rw [segmentName, segmentName, hfa, hfb] at h
  have hd : natDigits a = natDigits b := by
    have := List.append_cancel_left h
    exact List.tail_eq_of_cons_eq this
  have := parseDigits_natDigits a
  rw [hd, parseDigits_natDigits b] at this
  exact (Option.some_injective _ this).symm

/-! ## Behavior of the retention pipeline -/

/-- The name of the segment file created at a (nonnegative) model time. -/
def natSegName (t : Nat) : List Char := segmentName (t : Int)

theorem getSegmentInfos_segNames (tss : List Nat) (h : ∀ t ∈ tss, t ≤ 2 ^ 63) :
    getSegmentInfos (tss.map natSegName) =
      some (tss.map fun t => ⟨natSegName t, -(t : Int)⟩) := by
  induction tss with
  | nil => rfl
  | cons t rest ih =>
      simp only [List.map_cons, getSegmentInfos]
      have hpre : segFilePre.isPrefixOf (natSegName t) = true :=
        isPre_append_self _ _
      rw [if_pos hpre,
        show replaceAll (natSegName t) segFilePre [] =
          replaceAll (segmentName (t : Int)) segFilePre [] from rfl,
        parseSegmentName t (h t (List.mem_cons_self _ _)),
        ih (fun x hx => h x (List.mem_cons_of_mem _ hx))]
      rfl

theorem sortByTs_of_sorted :
    ∀ l : List SegmentInfo,
      List.Chain' (fun a b => a.timestamp ≤ b.timestamp) l → sortByTs l = l := by
  intro l
  induction l with
  | nil => intro _; rfl
  | cons x xs ih =>
      intro h
      rw [sortByTs, ih h.tail]
      cases xs with
      | nil => rfl
      | cons y ys =>
          have hxy : x.timestamp ≤ y.timestamp := (List.chain'_cons.mp h).1
          rw [insertByTs, if_neg (not_lt.mpr hxy)]

theorem removeLoop_ok (env : Env) (henv : ∀ nm, env.removeErr nm = none)
    (maxSeg : Int) :
    ∀ (l : List SegmentInfo) (count : Int),
      removeLoop env maxSeg count l =
        (.ok ((l.take (count - maxSeg + 1).toNat).map SegmentInfo.name),
         (l.take (count - maxSeg + 1).toNat).map fun s => FsOp.remove s.name) := by
  intro l
  induction l with
  | nil => intro count; simp [removeLoop]
  | cons seg rest ih =>
      intro count
      by_cases hc : count < maxSeg
      · have ht : (count - maxSeg + 1).toNat = 0 := by omega
        rw [removeLoop, if_pos hc, ht]
        simp
      · have ht : (count - maxSeg + 1).toNat = (count - 1 - maxSeg + 1).toNat + 1 := by
          omega
        rw [removeLoop, if_neg hc, henv seg.name, ih (count - 1), ht]
        simp [List.take_succ_cons]

theorem removeEntries_nil_names (entries : List (List Char × List Nat)) :
    removeEntries entries [] = entries := by
  induction entries with
  | nil => rfl
  | cons e rest ih => simp [removeEntries, ih]

theorem removeEntries_cons_notmem (entries : List (List Char × List Nat))
    (x : List Char) (names : List (List Char)) (h : x ∉ entries.map Prod.fst) :
    removeEntries entries (x :: names) = removeEntries entries names := by
  induction entries with
  | nil => rfl
  | cons e rest ih =>
      have hx : e.1 ≠ x := by
        intro he
        exact h (by simp [← he])
      have hrest : x ∉ rest.map Prod.fst := fun hm => h (by simp [hm])
      by_cases hm : e.1 ∈ names
      · rw [removeEntries, if_pos (List.mem_cons_of_mem _ hm),
          removeEntries, if_pos hm]
        exact ih hrest
      · have : e.1 ∉ x :: names := by
          intro hc
          rcases List.mem_cons.mp hc with hc | hc
          · exact hx hc
          · exact hm hc
        rw [removeEntries, if_neg this, removeEntries, if_neg hm]
        rw [ih hrest]

theorem removeEntries_take_drop :
    ∀ (entries : List (List Char × List Nat)) (j : Nat),
      (entries.map Prod.fst).Nodup →
      removeEntries entries ((entries.map Prod.fst).take j) = entries.drop j := by
  intro entries
  induction entries with
  | nil => intro j _; simp [removeEntries]
  | cons e rest ih =>
      intro j hnd
      cases j with
      | zero => simp [removeEntries_nil_names]
      | succ m =>
          rw [List.map_cons] at hnd
          obtain ⟨hnotm, hrest⟩ := List.nodup_cons.mp hnd
          simp only [List.map_cons, List.take_succ_cons, List.drop_succ_cons]
          rw [removeEntries, if_pos (List.mem_cons_self _ _)]
          rw [removeEntries_cons_notmem rest e.1 _ hnotm]
          exact ih m hrest

theorem chain_gt_head : ∀ (t : Nat) (rest : List Nat),
    List.Chain' (fun a b => b < a) (t :: rest) → ∀ x ∈ rest, x < t := by
  intro t rest
  induction rest generalizing t with
  | nil => intro _ x hx; simp at hx
  | cons r rs ih =>
      intro h x hx
      have hrt : r < t := (List.chain'_cons.mp h).1
      rcases List.mem_cons.mp hx with rfl | hx'
      · exact hrt
      · exact lt_trans (ih r (List.chain'_cons.mp h).2 x hx') hrt

theorem chain_gt_nodup_names :
    ∀ tss : List Nat, List.Chain' (fun a b => b < a) tss →
      (tss.map natSegName).Nodup := by
  intro tss
  induction tss with
  | nil => intro _; simp
  | cons t rest ih =>
      intro h
      rw [List.map_cons, List.nodup_cons]
      constructor
      · intro hmem
        obtain ⟨x, hx, hxeq⟩ := List.mem_map.mp hmem
        have hlt : x < t := chain_gt_head t rest h x hx
        have : x = t := segmentName_inj x t hxeq
        omega
      · exact ih h.tail

/-! ## Claim C1 — retention outcome -/

/-- C1 counterexample: with `maxSegments = 2` and a directory holding
exactly the two engine-created segment files `segment--100` and
`segment--50`, the claim predicts that both files (the 2 most recent of 2)
remain after retention; the code instead deletes `segment--100` — the
newest — leaving one file, the oldest. -/
theorem c1_retention_counterexample :
    (processOldSegments okEnv 2 [natSegName 100, natSegName 50]).1 =
      .ok [natSegName 100] ∧
    removeEntries [(natSegName 100, []), (natSegName 50, [])] [natSegName 100] =
      [(natSegName 50, [])] := by decide

/-- Retention on a directory of exactly `M + k` engine-created segment
files with distinct timestamps listed newest first, `1 ≤ M`: the first
`k + 1` names are deleted, in listing order. -/
theorem retention_pipeline (M k : Nat) (_hM : 1 ≤ M)
    (tss : List Nat) (hlen : tss.length = M + k)
    (hdec : List.Chain' (fun a b => b < a) tss)
    (hbound : ∀ t ∈ tss, t ≤ 2 ^ 63) :
    processOldSegments okEnv (M : Int) (tss.map natSegName) =
      (.ok ((tss.map natSegName).take (k + 1)),
       ((tss.map natSegName).take (k + 1)).map FsOp.remove) := by
  have hns : (tss.map natSegName).length = M + k := by simp [hlen]
  rw [processOldSegments, if_neg (by rw [hns]; push_cast; omega)]
  rw [deleteOldSegments, getSegmentInfos_segNames tss hbound]
  have hchain : List.Chain' (fun a b : SegmentInfo => a.timestamp ≤ b.timestamp)
      (tss.map fun t => ⟨natSegName t, -(t : Int)⟩) := by
    rw [List.chain'_map]
    refine hdec.imp ?_
    intro a b hab
    show -(a : Int) ≤ -(b : Int)
    have : (b : Int) ≤ (a : Int) := by exact_mod_cast Nat.le_of_lt hab
    omega
  show removeLoop okEnv (M : Int) (((tss.map natSegName).length : Int))
      (sortByTs (tss.map fun t => ⟨natSegName t, -(t : Int)⟩)) =
    (.ok ((tss.map natSegName).take (k + 1)),
     ((tss.map natSegName).take (k + 1)).map FsOp.remove)
  rw [sortByTs_of_sorted _ hchain]
  rw [removeLoop_ok okEnv (fun _ => rfl) (M : Int) _ _]
  have htn : (((tss.map natSegName).length : Int) - M + 1).toNat = k + 1 := by
    rw [hns]; push_cast; omega
  rw [htn, ← List.map_take, ← List.map_take, List.map_map, List.map_map,
    List.map_map]
  rfl

/-- C1 (amended): with `maxSegments = M ≥ 1`, an append's retention step
on a directory holding exactly `M + k` engine-created segment files
(`k ≥ 0`, distinct creation timestamps, listed newest first) sorts the
descriptors by parsed timestamp ascending and deletes from the front of
that order; but since the parsed timestamp of an engine-created name
`segment--<ts>` is `-ts`, the front of the parsed order holds the newest
files: the `k + 1` most-recently-created segment files are deleted and
exactly `M - 1` remain, namely the `M - 1` oldest-created ones. -/
theorem c1_retention_deletes_newest (M k : Nat) (hM : 1 ≤ M)
    (tss : List Nat) (hlen : tss.length = M + k)
    (hdec : List.Chain' (fun a b => b < a) tss)
    (hbound : ∀ t ∈ tss, t ≤ 2 ^ 63) :
    processOldSegments okEnv (M : Int) (tss.map natSegName) =
      (.ok ((tss.map natSegName).take (k + 1)),
       ((tss.map natSegName).take (k + 1)).map FsOp.remove) ∧
    ∀ entries : List (List Char × List Nat),
      entries.map Prod.fst = tss.map natSegName →
      removeEntries entries ((tss.map natSegName).take (k + 1)) =
        entries.drop (k + 1) ∧ (entries.drop (k + 1)).length = M - 1 := by
  have hns : (tss.map natSegName).length = M + k := by simp [hlen]
  constructor
  · exact retention_pipeline M k hM tss hlen hdec hbound
  · intro entries he
    have hnodup : (entries.map Prod.fst).Nodup := by
      rw [he]
      exact chain_gt_nodup_names tss hdec
    have hrm : removeEntries entries ((tss.map natSegName).take (k + 1)) =
        entries.drop (k + 1) := by
      rw [← he]
      exact removeEntries_take_drop entries (k + 1) hnodup
    refine ⟨hrm, ?_⟩
    have hel : entries.length = M + k := by
      have := congrArg List.length he
      simpa [hns] using this
    simp [hel]
    omega

/-- C1 witness: the amended claim at `M = 2`, `k = 0`, timestamps
`[100, 50]`. -/
theorem c1_retention_deletes_newest_witness :
    processOldSegments okEnv ((2 : Nat) : Int) [natSegName 100, natSegName 50] =
      (.ok [natSegName 100], [FsOp.remove (natSegName 100)]) := by
  have h := c1_retention_deletes_newest 2 0 (by norm_num) [100, 50] rfl
    (by simp) (by decide)
  simpa using h.1

/-! ## Claim C3 — construction and the log directory -/

/-- C3 counterexample: constructing over an already-existing log directory
fails on the mkdir step — `New` returns `os.Mkdir`'s error unconditionally,
with no carve-out for "already exists". -/
theorem c3_mkdir_counterexample :
    (walNew okEnv true 3 100 5).1 = .error (.io eexist) := by decide

/-- C3 (amended): constructing the engine creates the log directory when
absent and succeeds; construction fails whenever directory creation fails
for ANY reason, the directory already existing included (the code does not
ignore `ErrExist`). -/
theorem c3_mkdir_failure_propagates (maxSeg segSize ts : Int) (e : Nat) :
    (∀ env : Env, (walNew env true maxSeg segSize ts).1 = .error (.io eexist)) ∧
    (walNew { okEnv with mkdirErr := some e } false maxSeg segSize ts).1 =
      .error (.io e) ∧
    (walNew okEnv false maxSeg segSize ts).1 =
      .ok { dir := [(segmentName ts, [])], currentName := segmentName ts,
            currentContent := [], maxSegments := maxSeg, segmentSize := segSize } := by
  refine ⟨fun env => rfl, rfl, rfl⟩

/-! ## Claim C7 — retention versus the active segment -/

/-- The 17-byte record produced by appending the payload `[97]` to an
empty segment. -/
def recA : List Nat := writeRecordBytes [] [97]

/-- State reached by `New` at time 50 with `maxSegments = 2`,
`segmentSize = 16`. -/
def c7s0 : WalState :=
  { dir := [(natSegName 50, [])], currentName := natSegName 50,
    currentContent := [], maxSegments := 2, segmentSize := 16 }

/-- State after the first append (`[97]` at time 50). -/
def c7s1 : WalState :=
  { dir := [(natSegName 50, recA)], currentName := natSegName 50,
    currentContent := recA, maxSegments := 2, segmentSize := 16 }

/-- State after the second append (`[97]` at time 100), which rotated into
the new active segment `segment--100`. -/
def c7s2 : WalState :=
  { dir := [(natSegName 50, recA), (natSegName 100, recA)],
    currentName := natSegName 100, currentContent := recA,
    maxSegments := 2, segmentSize := 16 }

/-- C7 counterexample: a reachable run (construct at time 50, append,
append at time 100 — which rotates) in which the next append's retention
step deletes the file of the currently active segment `segment--100`:
the claim's "the active segment is never among the files deleted" fails. -/
theorem c7_active_deleted_counterexample :
    (walNew okEnv false 2 16 50).1 = .ok c7s0 ∧
    (walWrite okEnv c7s0 50 [97]).1 = .ok c7s1 ∧
    (walWrite okEnv c7s1 100 [97]).1 = .ok c7s2 ∧
    c7s2.currentName = natSegName 100 ∧
    FsOp.remove (natSegName 100) ∈ (walWrite okEnv c7s2 100 [97]).2 := by decide

/-- C7 (amended): retention gives the active segment no exemption — it
deletes purely by parsed-timestamp order and count.  For a directory of
engine-created segments with distinct timestamps listed newest first
(`t0` the newest, i.e. the most recently created and hence the active
segment's timestamp), every retention-triggering append deletes the active
segment's file, and deletes it first. -/
theorem c7_retention_deletes_active (M k : Nat) (hM : 1 ≤ M)
    (t0 : Nat) (rest : List Nat) (hlen : (t0 :: rest).length = M + k)
    (hdec : List.Chain' (fun a b => b < a) (t0 :: rest))
    (hbound : ∀ t ∈ t0 :: rest, t ≤ 2 ^ 63) :
    processOldSegments okEnv (M : Int) ((t0 :: rest).map natSegName) =
      (.ok (((t0 :: rest).map natSegName).take (k + 1)),
       (((t0 :: rest).map natSegName).take (k + 1)).map FsOp.remove) ∧
    natSegName t0 ∈ ((t0 :: rest).map natSegName).take (k + 1) := by
  refine ⟨retention_pipeline M k hM _ hlen hdec hbound, ?_⟩
  simp [List.take_succ_cons]

/-- C7 witness: the amended claim at `M = 2`, `k = 0`, active segment
`segment--100`, sealed segment `segment--50`: the deleted prefix contains
the active segment's file. -/
theorem c7_retention_deletes_active_witness :
    natSegName 100 ∈ ([natSegName 100, natSegName 50].take 1) := by
  have h := c7_retention_deletes_active 2 0 (by norm_num) 100 [50] rfl
    (by simp) (by decide)
  exact h.2

/-! ## Claim C4 — the per-record offset field -/

/-- State with one fresh empty segment, large limits (no retention, no
rotation). -/
def c4s0 : WalState :=
  { dir := [(natSegName 5, [])], currentName := natSegName 5,
    currentContent := [], maxSegments := 10, segmentSize := 100 }

/-- `c4s0` after appending `[97]`. -/
def c4s1 : WalState :=
  { dir := [(natSegName 5, recA)], currentName := natSegName 5,
    currentContent := recA, maxSegments := 10, segmentSize := 100 }

/-- The segment content after appending `[97]` then `[98]`. -/
def recB : List Nat := writeRecordBytes recA [98]

/-- `c4s1` after appending `[98]`. -/
def c4s2 : WalState :=
  { dir := [(natSegName 5, recB)], currentName := natSegName 5,
    currentContent := recB, maxSegments := 10, segmentSize := 100 }

/-- C4 counterexample: two appends (payloads `[97]`, `[98]`) into a fresh
segment store offset fields 0 and 17 — the second is the byte position
after the first 17-byte record, not the claimed per-record counter value
1. -/
theorem c4_offset_counterexample :
    (walWrite okEnv c4s0 5 [97]).1 = .ok c4s1 ∧
    (walWrite okEnv c4s1 5 [98]).1 = .ok c4s2 ∧
    offsetField c4s1.currentContent = 0 ∧
    offsetField (c4s2.currentContent.drop 17) = 17 ∧
    offsetField (c4s2.currentContent.drop 17) ≠ 1 := by decide

/-- C4 (amended): the offset stored in a record's header is the active
segment's byte size at the moment of the append (mod `2 ^ 64`), not a
per-record counter: an append onto content `c` stores offset `|c|` and
grows the segment by `16 + |payload|` bytes, so successive offsets grow by
the encoded record size rather than by 1; a freshly created segment file
is empty, so its first record stores offset 0 (on a same-second name
collision `createNewLogFile` reopens the existing file instead, and the
offset continues from that file's size). -/
theorem c4_offset_is_byte_size (st : WalState) (ts : Int) (data : List Nat)
    (hret : ((st.dir.length : Nat) : Int) < st.maxSegments)
    (hrot : ¬ ((st.currentContent.length : Int) > st.segmentSize)) :
    (walWrite okEnv st ts data).1 =
      .ok { st with currentContent := writeRecordBytes st.currentContent data,
                    dir := updateEntry st.dir st.currentName
                            (writeRecordBytes st.currentContent data) } ∧
    (∀ c d : List Nat,
       offsetField ((writeRecordBytes c d).drop c.length) = c.length % 2 ^ 64 ∧
       (writeRecordBytes c d).length = c.length + 16 + d.length) ∧
    (∀ (st1 : WalState) (ts1 : Int),
       lookupContent st1.dir (segmentName ts1) = none →
       (createNewLogFile okEnv st1 ts1).1 =
         .ok { st1 with currentName := segmentName ts1, currentContent := [],
                        dir := st1.dir ++ [(segmentName ts1, [])] }) := by
  refine ⟨?_, ?_, ?_⟩
  · have hpos : ((st.dir.map Prod.fst).length : Int) < st.maxSegments := by
      rw [List.length_map]; exact hret
    have h2 : processOldSegments okEnv st.maxSegments (st.dir.map Prod.fst) =
        (.ok [], []) := by
      rw [processOldSegments, if_pos hpos]
    have h3 : rotateLogIfSizeExceeds okEnv st ts = (.ok st, [.readDir, .stat]) := by
      simp only [rotateLogIfSizeExceeds, getAllSegments, okEnv_readDirErr,
        okEnv_statErr, h2, removeEntries_nil_names]
      rw [if_neg hrot]
      rfl
    simp only [walWrite, h3, okEnv_seekErr, okEnv_writeErr]
  · intro c d
    constructor
    · rw [offsetField, writeRecordBytes_eq,
        drop_len_append c (encodeRecord c.length d) c.length rfl,
        encodeRecord, List.append_assoc, List.append_assoc,
        take_len_append _ _ 8 (leBytes_length _ _), leDecode_leBytes]
      norm_num
    · rw [writeRecordBytes_eq]
      simp [encodeRecord, leBytes_length]
      omega
  · intro st1 ts1 hl
    simp only [createNewLogFile, okEnv_openErr, hl]

/-- C4 witness: the amended statement at the concrete fresh-segment state,
payloads `[97]` then `[98]`. -/
theorem c4_offset_is_byte_size_witness :
    (walWrite okEnv c4s0 5 [97]).1 =
      .ok { c4s0 with currentContent := writeRecordBytes [] [97],
                      dir := updateEntry c4s0.dir c4s0.currentName
                              (writeRecordBytes [] [97]) } ∧
    offsetField ((writeRecordBytes recA [98]).drop recA.length) =
      recA.length % 2 ^ 64 := by
  have h := c4_offset_is_byte_size c4s0 5 [97] (by decide) (by decide)
  exact ⟨h.1, (h.2.1 recA [98]).1⟩

/-! ## Claim C5 — rotation trigger and (absence of) flushing -/

theorem getAllSegments_trace (env : Env) (st : WalState) :
    (getAllSegments env st).2 = [FsOp.readDir] := by
  cases h : env.readDirErr <;> simp [getAllSegments, h]

theorem createNewLogFile_trace (env : Env) (st : WalState) (ts : Int) :
    (createNewLogFile env st ts).2 = [FsOp.openFile (segmentName ts)] := by
  cases ho : env.openErr with
  | some e => simp [createNewLogFile, ho]
  | none =>
      cases hl : lookupContent st.dir (segmentName ts) <;>
        simp [createNewLogFile, ho, hl]

theorem removeLoop_trace_remove (env : Env) (m : Int) :
    ∀ (l : List SegmentInfo) (c : Int) (op : FsOp),
      op ∈ (removeLoop env m c l).2 → ∃ nm, op = FsOp.remove nm := by
  intro l
  induction l with
  | nil => intro c op h; simp [removeLoop] at h
  | cons seg rest ih =>
      intro c op h
      rw [removeLoop] at h
      by_cases hc : c < m
      · rw [if_pos hc] at h; simp at h
      · rw [if_neg hc] at h
        cases he : env.removeErr seg.name with
        | some e =>
            rw [he] at h
            simp at h
            exact ⟨seg.name, h⟩
        | none =>
            rw [he] at h
            rcases hrl : removeLoop env m (c - 1) rest with ⟨r, tr⟩
            rw [hrl] at h
            have htr : op ∈ tr → ∃ nm, op = FsOp.remove nm := by
              intro hop
              exact ih (c - 1) op (by rw [hrl]; exact hop)
            cases r with
            | error e =>
                simp at h
                rcases h with h | h
                · exact ⟨seg.name, h⟩
                · exact htr h
            | ok d =>
                simp at h
                rcases h with h | h
                · exact ⟨seg.name, h⟩
                · exact htr h

theorem processOldSegments_trace_remove (env : Env) (m : Int)
    (names : List (List Char)) (op : FsOp)
    (h : op ∈ (processOldSegments env m names).2) :
    ∃ nm, op = FsOp.remove nm := by
  rw [processOldSegments] at h
  by_cases hc : ((names.length : Int) < m)
  · rw [if_pos hc] at h; simp at h
  · rw [if_neg hc] at h
    rw [deleteOldSegments] at h
    cases hg : getSegmentInfos names with
    | none => rw [hg] at h; simp at h
    | some infos =>
        rw [hg] at h
        exact removeLoop_trace_remove env m (sortByTs infos) (names.length : Int) op h

theorem rotate_no_sync (env : Env) (st : WalState) (ts : Int) :
    FsOp.sync ∉ (rotateLogIfSizeExceeds env st ts).2 := by
  intro hmem
  rw [rotateLogIfSizeExceeds] at hmem
  rcases hga : getAllSegments env st with ⟨r1, tr1⟩
  have htr1 : tr1 = [FsOp.readDir] := by
    have h := getAllSegments_trace env st
    rw [hga] at h
    exact h
  subst htr1
  cases r1 with
  | error e =>
      simp only [hga] at hmem
      simp at hmem
  | ok files =>
      simp only [hga] at hmem
      rcases hpo : processOldSegments env st.maxSegments files with ⟨r2, tr2⟩
      have htr2 : ∀ op ∈ tr2, ∃ nm, op = FsOp.remove nm := by
        intro op hop
        exact processOldSegments_trace_remove env _ files op (by rw [hpo]; exact hop)
      cases r2 with
      | error e =>
          simp only [hpo] at hmem
          simp at hmem
          obtain ⟨nm, hop⟩ := htr2 _ hmem
          simp at hop
      | ok deleted =>
          simp only [hpo] at hmem
          cases hse : env.statErr with
          | some e =>
              simp only [hse] at hmem
              simp at hmem
              obtain ⟨nm, hop⟩ := htr2 _ hmem
              simp at hop
          | none =>
              simp only [hse] at hmem
              by_cases hgt : ((st.currentContent.length : Int) > st.segmentSize)
              · rw [if_pos hgt] at hmem
                rcases hcn : createNewLogFile env
                    { st with dir := removeEntries st.dir deleted } ts with ⟨r3, tr3⟩
                have htr3 : tr3 = [FsOp.openFile (segmentName ts)] := by
                  have h := createNewLogFile_trace env
                    { st with dir := removeEntries st.dir deleted } ts
                  rw [hcn] at h
                  exact h
                subst htr3
                cases r3 with
                | ok st2 =>
                    simp only [hcn] at hmem
                    simp at hmem
                    obtain ⟨nm, hop⟩ := htr2 _ hmem
                    simp at hop
                | error e =>
                    simp only [hcn] at hmem
                    simp at hmem
                    obtain ⟨nm, hop⟩ := htr2 _ hmem
                    simp at hop
              · rw [if_neg hgt] at hmem
                simp at hmem
                obtain ⟨nm, hop⟩ := htr2 _ hmem
                simp at hop

/-- The state `c7s1` under a 16-byte rotation threshold: one segment file
`segment--50` holding one 17-byte record, active, about to rotate. -/
def c5s : WalState :=
  { dir := [(natSegName 50, recA)], currentName := natSegName 50,
    currentContent := recA, maxSegments := 10, segmentSize := 16 }

/-- `c5s` after the rotation step at time 99 created `segment--99`. -/
def c5sRot : WalState :=
  { dir := [(natSegName 50, recA), (natSegName 99, [])],
    currentName := natSegName 99, currentContent := [],
    maxSegments := 10, segmentSize := 16 }

/-- C5 counterexample: a rotation that triggers (statted size 17 > 16)
creates the new segment file with NO flush of the active segment — the
recorded trace is exactly `readDir, stat, openFile`, with no `sync`
operation before the creation (or anywhere). -/
theorem c5_flush_counterexample :
    rotateLogIfSizeExceeds okEnv c5s 99 =
      (.ok c5sRot, [FsOp.readDir, FsOp.stat, FsOp.openFile (natSegName 99)]) ∧
    FsOp.sync ∉ [FsOp.readDir, FsOp.stat, FsOp.openFile (natSegName 99)] := by
  decide

/-- C5 (amended): on every append, rotation triggers exactly when the
active segment's statted file size strictly exceeds the configured
threshold (given a retention step that deletes nothing and a fresh target
name); but when it triggers the active segment is NOT flushed first — in
fact no `sync` operation ever appears in the rotation step's trace, under
any oracle: the new segment file is created with the active segment
unflushed. -/
theorem c5_rotation_strict_no_flush :
    (∀ (st : WalState) (ts : Int),
       ((st.dir.length : Int) < st.maxSegments) →
       lookupContent st.dir (segmentName ts) = none →
       (rotateLogIfSizeExceeds okEnv st ts).1 =
         .ok (if (st.currentContent.length : Int) > st.segmentSize
              then { st with currentName := segmentName ts, currentContent := [],
                             dir := st.dir ++ [(segmentName ts, [])] }
              else st)) ∧
    ∀ (env : Env) (st : WalState) (ts : Int),
      FsOp.sync ∉ (rotateLogIfSizeExceeds env st ts).2 := by
  constructor
  · intro st ts hret hfresh
    have hpos : ((st.dir.map Prod.fst).length : Int) < st.maxSegments := by
      rw [List.length_map]; exact hret
    have h2 : processOldSegments okEnv st.maxSegments (st.dir.map Prod.fst) =
        (.ok [], []) := by
      rw [processOldSegments, if_pos hpos]
    simp only [rotateLogIfSizeExceeds, getAllSegments, okEnv_readDirErr,
      okEnv_statErr, h2, removeEntries_nil_names]
    by_cases hgt : ((st.currentContent.length : Int) > st.segmentSize)
    · rw [if_pos hgt, if_pos hgt]
      simp only [createNewLogFile, okEnv_openErr, hfresh]
    · rw [if_neg hgt, if_neg hgt]
  · exact rotate_no_sync

/-- C5 witness: the first half of the amended claim at the concrete state
`c5s` (size 17 > threshold 16, so rotation fires and the active segment is
replaced by a fresh `segment--99`). -/
theorem c5_rotation_strict_no_flush_witness :
    (rotateLogIfSizeExceeds okEnv c5s 99).1 =
      .ok { c5s with currentName := segmentName 99, currentContent := [],
                     dir := c5s.dir ++ [(segmentName 99, [])] } := by
  have h := c5_rotation_strict_no_flush.1 c5s 99 (by decide) (by decide)
  rw [if_pos (by decide)] at h
  exact h

/-! ## Claim C6 — error propagation on the append path -/

theorem getSegmentInfos_none (names : List (List Char)) (bad : List Char)
    (hmem : bad ∈ names) (hpre : segFilePre.isPrefixOf bad = true)
    (hparse : parseInt10 (replaceAll bad segFilePre []) = none) :
    getSegmentInfos names = none := by
  induction names with
  | nil => simp at hmem
  | cons n rest ih =>
      rw [getSegmentInfos]
      rcases List.mem_cons.mp hmem with heq | hmem2
      · subst heq
        rw [if_pos hpre, hparse]
      · by_cases hp : segFilePre.isPrefixOf n = true
        · rw [if_pos hp]
          cases hpp : parseInt10 (replaceAll n segFilePre []) with
          | none => rfl
          | some ts => rw [ih hmem2]; rfl
        · rw [if_neg hp]
          exact ih hmem2

/-- Oracle failing only `os.ReadDir`. -/
def failReadDir (e : Nat) : Env :=
  ⟨none, some e, none, none, none, none, none, fun _ => none⟩

/-- Oracle failing only `File.Stat`. -/
def failStat (e : Nat) : Env :=
  ⟨none, none, some e, none, none, none, none, fun _ => none⟩

/-- Oracle failing only `os.OpenFile`. -/
def failOpen (e : Nat) : Env :=
  ⟨none, none, none, some e, none, none, none, fun _ => none⟩

/-- Oracle failing only `File.Seek`. -/
def failSeek (e : Nat) : Env :=
  ⟨none, none, none, none, some e, none, none, fun _ => none⟩

/-- Oracle failing only `File.Write`. -/
def failWrite (e : Nat) : Env :=
  ⟨none, none, none, none, none, some e, none, fun _ => none⟩

/-- Oracle failing only `os.Remove` (every removal). -/
def failRemove (e : Nat) : Env :=
  ⟨none, none, none, none, none, none, none, fun _ => some e⟩

theorem failStat_readDirErr (e : Nat) : (failStat e).readDirErr = none := rfl

theorem failStat_statErr (e : Nat) : (failStat e).statErr = some e := rfl

theorem failOpen_readDirErr (e : Nat) : (failOpen e).readDirErr = none := rfl

theorem failOpen_statErr (e : Nat) : (failOpen e).statErr = none := rfl

theorem failOpen_openErr (e : Nat) : (failOpen e).openErr = some e := rfl

theorem failOpen_seekErr (e : Nat) : (failOpen e).seekErr = none := rfl

theorem failOpen_writeErr (e : Nat) : (failOpen e).writeErr = none := rfl

theorem failSeek_readDirErr (e : Nat) : (failSeek e).readDirErr = none := rfl

theorem failSeek_statErr (e : Nat) : (failSeek e).statErr = none := rfl

theorem failSeek_seekErr (e : Nat) : (failSeek e).seekErr = some e := rfl

theorem failWrite_readDirErr (e : Nat) : (failWrite e).readDirErr = none := rfl

theorem failWrite_statErr (e : Nat) : (failWrite e).statErr = none := rfl

theorem failWrite_seekErr (e : Nat) : (failWrite e).seekErr = none := rfl

theorem failWrite_writeErr (e : Nat) : (failWrite e).writeErr = some e := rfl

theorem failRemove_readDirErr (e : Nat) : (failRemove e).readDirErr = none := rfl

theorem failRemove_removeErr (e : Nat) (nm : List Char) :
    (failRemove e).removeErr nm = some e := rfl

/-- C6 (amended): every filesystem error on the append path —
`ReadDir`, the filename parse error, `Remove` during retention, `Stat`,
`Seek`, and `File.Write` — is returned to the caller as the first error
encountered, without retry; the ONE exception is `createNewLogFile`'s
error during rotation, which `rotateLogIfSizeExceeds` discards: the append
then continues on the old active segment and reports success. -/
theorem c6_error_propagation (e : Nat) :
    (∀ (st : WalState) (ts : Int) (data : List Nat),
       (walWrite (failReadDir e) st ts data).1 = .error (.io e)) ∧
    (∀ (st : WalState) (ts : Int) (data : List Nat) (bad : List Char),
       bad ∈ st.dir.map Prod.fst →
       segFilePre.isPrefixOf bad = true →
       parseInt10 (replaceAll bad segFilePre []) = none →
       ¬ ((st.dir.length : Int) < st.maxSegments) →
       (walWrite okEnv st ts data).1 = .error .parseError) ∧
    (∀ (st : WalState) (ts : Int) (data : List Nat) (infos : List SegmentInfo)
       (seg : SegmentInfo) (segs : List SegmentInfo),
       ¬ ((st.dir.length : Int) < st.maxSegments) →
       getSegmentInfos (st.dir.map Prod.fst) = some infos →
       sortByTs infos = seg :: segs →
       (walWrite (failRemove e) st ts data).1 = .error (.io e)) ∧
    (∀ (st : WalState) (ts : Int) (data : List Nat),
       ((st.dir.length : Int) < st.maxSegments) →
       (walWrite (failStat e) st ts data).1 = .error (.io e)) ∧
    (∀ (st : WalState) (ts : Int) (data : List Nat),
       ((st.dir.length : Int) < st.maxSegments) →
       ((st.currentContent.length : Int) > st.segmentSize) →
       (walWrite (failOpen e) st ts data).1 =
         .ok { st with currentContent := writeRecordBytes st.currentContent data,
                       dir := updateEntry st.dir st.currentName
                               (writeRecordBytes st.currentContent data) }) ∧
    (∀ (st : WalState) (ts : Int) (data : List Nat),
       ((st.dir.length : Int) < st.maxSegments) →
       ¬ ((st.currentContent.length : Int) > st.segmentSize) →
       (walWrite (failSeek e) st ts data).1 = .error (.io e)) ∧
    (∀ (st : WalState) (ts : Int) (data : List Nat),
       ((st.dir.length : Int) < st.maxSegments) →
       ¬ ((st.currentContent.length : Int) > st.segmentSize) →
       (walWrite (failWrite e) st ts data).1 = .error (.io e)) := by
  refine ⟨?_, ?_, ?_, ?_, ?_, ?_, ?_⟩
  · intro st ts data
    rfl
  · intro st ts data bad hmem hpre hparse hcount
    have hginfos : getSegmentInfos (st.dir.map Prod.fst) = none :=
      getSegmentInfos_none _ bad hmem hpre hparse
    have hpos : ¬ (((st.dir.map Prod.fst).length : Int) < st.maxSegments) := by
      rw [List.length_map]; exact hcount
    have h2 : processOldSegments okEnv st.maxSegments (st.dir.map Prod.fst) =
        (.error .parseError, []) := by
      rw [processOldSegments, if_neg hpos, deleteOldSegments, hginfos]
    simp only [walWrite, rotateLogIfSizeExceeds, getAllSegments,
      okEnv_readDirErr, h2]
  · intro st ts data infos seg segs hcount hinfos hsort
    have hpos : ¬ (((st.dir.map Prod.fst).length : Int) < st.maxSegments) := by
      rw [List.length_map]; exact hcount
    have hrl : removeLoop (failRemove e) st.maxSegments
        (((st.dir.map Prod.fst).length : Nat) : Int) (seg :: segs) =
        (.error (.io e), [.remove seg.name]) := by
      rw [removeLoop, if_neg hpos, failRemove_removeErr]
    have h2 : processOldSegments (failRemove e) st.maxSegments
        (st.dir.map Prod.fst) = (.error (.io e), [.remove seg.name]) := by
      rw [processOldSegments, if_neg hpos, deleteOldSegments, hinfos]
      show removeLoop (failRemove e) st.maxSegments
          (((st.dir.map Prod.fst).length : Nat) : Int) (sortByTs infos) = _
      rw [hsort, hrl]
    simp only [walWrite, rotateLogIfSizeExceeds, getAllSegments,
      failRemove_readDirErr, h2]
  · intro st ts data hret
    have hpos : (((st.dir.map Prod.fst).length : Int) < st.maxSegments) := by
      rw [List.length_map]; exact hret
    have h2 : processOldSegments (failStat e) st.maxSegments
        (st.dir.map Prod.fst) = (.ok [], []) := by
      rw [processOldSegments, if_pos hpos]
    simp only [walWrite, rotateLogIfSizeExceeds, getAllSegments,
      failStat_readDirErr, h2, failStat_statErr]
  · intro st ts data hret hgt
    have hpos : (((st.dir.map Prod.fst).length : Int) < st.maxSegments) := by
      rw [List.length_map]; exact hret
    have h2 : processOldSegments (failOpen e) st.maxSegments
        (st.dir.map Prod.fst) = (.ok [], []) := by
      rw [processOldSegments, if_pos hpos]
    simp only [walWrite, rotateLogIfSizeExceeds, getAllSegments,
      failOpen_readDirErr, h2, removeEntries_nil_names, failOpen_statErr]
    rw [if_pos hgt]
    simp only [createNewLogFile, failOpen_openErr, failOpen_seekErr,
      failOpen_writeErr]
  · intro st ts data hret hrot
    have hpos : (((st.dir.map Prod.fst).length : Int) < st.maxSegments) := by
      rw [List.length_map]; exact hret
    have h2 : processOldSegments (failSeek e) st.maxSegments
        (st.dir.map Prod.fst) = (.ok [], []) := by
      rw [processOldSegments, if_pos hpos]
    simp only [walWrite, rotateLogIfSizeExceeds, getAllSegments,
      failSeek_readDirErr, h2, removeEntries_nil_names, failSeek_statErr]
    rw [if_neg hrot]
    simp only [failSeek_seekErr]
  · intro st ts data hret hrot
    have hpos : (((st.dir.map Prod.fst).length : Int) < st.maxSegments) := by
      rw [List.length_map]; exact hret
    have h2 : processOldSegments (failWrite e) st.maxSegments
        (st.dir.map Prod.fst) = (.ok [], []) := by
      rw [processOldSegments, if_pos hpos]
    simp only [walWrite, rotateLogIfSizeExceeds, getAllSegments,
      failWrite_readDirErr, h2, removeEntries_nil_names, failWrite_statErr]
    rw [if_neg hrot]
    simp only [failWrite_seekErr, failWrite_writeErr]

/-- C6 counterexample: with the `os.OpenFile` oracle failing (error
code 7) and a rotation-triggering state, creating the new segment file
fails — yet the append reports success, because `rotateLogIfSizeExceeds`
calls `w.createNewLogFile()` without capturing its error: a filesystem
error inside the append path is silently discarded. -/
theorem c6_discarded_create_error_counterexample :
    (walWrite (failOpen 7) c5s 99 [98]).1 =
      .ok { c5s with currentContent := writeRecordBytes c5s.currentContent [98],
                     dir := updateEntry c5s.dir c5s.currentName
                             (writeRecordBytes c5s.currentContent [98]) } ∧
    (createNewLogFile (failOpen 7) c5s 99).1 = .error (.io 7) := by decide

/-- A directory holding one file whose name has the segment prefix but a
non-numeric suffix. -/
def cBad : WalState :=
  { dir := [(segFilePre ++ ['x'], [])], currentName := segFilePre ++ ['x'],
    currentContent := [], maxSegments := 1, segmentSize := 100 }

/-- C6 witness: each of the amended claim's seven cases at concrete
states, with error code 7. -/
theorem c6_error_propagation_witness :
    (walWrite (failReadDir 7) c4s0 5 [97]).1 = .error (.io 7) ∧
    (walWrite okEnv cBad 5 [97]).1 = .error .parseError ∧
    (walWrite (failRemove 7) c7s2 100 [97]).1 = .error (.io 7) ∧
    (walWrite (failStat 7) c4s0 5 [97]).1 = .error (.io 7) ∧
    (walWrite (failOpen 7) c5s 99 [97]).1 =
      .ok { c5s with currentContent := writeRecordBytes c5s.currentContent [97],
                     dir := updateEntry c5s.dir c5s.currentName
                             (writeRecordBytes c5s.currentContent [97]) } ∧
    (walWrite (failSeek 7) c4s0 5 [97]).1 = .error (.io 7) ∧
    (walWrite (failWrite 7) c4s0 5 [97]).1 = .error (.io 7) := by
  have h := c6_error_propagation 7
  refine ⟨h.1 c4s0 5 [97], ?_, ?_, h.2.2.2.1 c4s0 5 [97] (by decide),
    h.2.2.2.2.1 c5s 99 [97] (by decide) (by decide),
    h.2.2.2.2.2.1 c4s0 5 [97] (by decide) (by decide),
    h.2.2.2.2.2.2 c4s0 5 [97] (by decide) (by decide)⟩
  · exact h.2.1 cBad 5 [97] (segFilePre ++ ['x']) (by decide) (by decide)
      (by decide) (by decide)
  · exact h.2.2.1 c7s2 100 [97]
      [⟨natSegName 50, -50⟩, ⟨natSegName 100, -100⟩]
      ⟨natSegName 100, -100⟩ [⟨natSegName 50, -50⟩]
      (by decide) (by decide) (by decide)

/-! ## Claim C8 — files without the segment prefix -/

theorem getSegmentInfos_mem (names : List (List Char)) :
    ∀ infos, getSegmentInfos names = some infos →
      ∀ i ∈ infos, segFilePre.isPrefixOf i.name = true ∧ i.name ∈ names := by
  induction names with
  | nil =>
      intro infos h i hi
      simp [getSegmentInfos] at h
      subst h
      simp at hi
  | cons n rest ih =>
      intro infos h i hi
      rw [getSegmentInfos] at h
      by_cases hp : segFilePre.isPrefixOf n = true
      · rw [if_pos hp] at h
        cases hpp : parseInt10 (replaceAll n segFilePre []) with
        | none => rw [hpp] at h; simp at h
        | some ts =>
            rw [hpp] at h
            cases hg : getSegmentInfos rest with
            | none => rw [hg] at h; simp at h
            | some infos2 =>
                rw [hg] at h
                simp at h
                subst h
                rcases List.mem_cons.mp hi with heq | htail
                · subst heq
                  exact ⟨hp, List.mem_cons_self _ _⟩
                · obtain ⟨hpre2, hmem2⟩ := ih infos2 hg i htail
                  exact ⟨hpre2, List.mem_cons_of_mem _ hmem2⟩
      · rw [if_neg hp] at h
        obtain ⟨hpre2, hmem2⟩ := ih infos h i hi
        exact ⟨hpre2, List.mem_cons_of_mem _ hmem2⟩

theorem mem_insertByTs (x y : SegmentInfo) :
    ∀ l, x ∈ insertByTs y l → x = y ∨ x ∈ l := by
  intro l
  induction l with
  | nil => intro h; simp [insertByTs] at h; exact Or.inl h
  | cons z zs ih =>
      intro h
      rw [insertByTs] at h
      by_cases hc : z.timestamp < y.timestamp
      · rw [if_pos hc] at h
        rcases List.mem_cons.mp h with h | h
        · exact Or.inr (h ▸ List.mem_cons_self _ _)
        · rcases ih h with h | h
          · exact Or.inl h
          · exact Or.inr (List.mem_cons_of_mem _ h)
      · rw [if_neg hc] at h
        rcases List.mem_cons.mp h with h | h
        · exact Or.inl h
        · exact Or.inr h

theorem mem_sortByTs (x : SegmentInfo) :
    ∀ l, x ∈ sortByTs l → x ∈ l := by
  intro l
  induction l with
  | nil => intro h; simp [sortByTs] at h
  | cons y ys ih =>
      intro h
      rw [sortByTs] at h
      rcases mem_insertByTs x y _ h with h | h
      · exact h ▸ List.mem_cons_self _ _
      · exact List.mem_cons_of_mem _ (ih h)

theorem removeLoop_deleted_sub (env : Env) (m : Int) :
    ∀ (l : List SegmentInfo) (c : Int) (deleted : List (List Char))
      (tr : List FsOp),
      removeLoop env m c l = (.ok deleted, tr) →
      ∀ nm ∈ deleted, ∃ i ∈ l, nm = i.name := by
  intro l
  induction l with
  | nil =>
      intro c deleted tr h nm hnm
      simp only [removeLoop, Prod.mk.injEq, Except.ok.injEq] at h
      obtain ⟨h1, _⟩ := h
      subst h1
      simp at hnm
  | cons seg rest ih =>
      intro c deleted tr h nm hnm
      rw [removeLoop] at h
      by_cases hc : c < m
      · rw [if_pos hc] at h
        simp only [Prod.mk.injEq, Except.ok.injEq] at h
        obtain ⟨h1, _⟩ := h
        subst h1
        simp at hnm
      · rw [if_neg hc] at h
        cases he : env.removeErr seg.name with
        | some e2 => rw [he] at h; simp at h
        | none =>
            rw [he] at h
            rcases hrl : removeLoop env m (c - 1) rest with ⟨r, tr2⟩
            rw [hrl] at h
            cases r with
            | error e2 => simp at h
            | ok d =>
                simp only [Prod.mk.injEq, Except.ok.injEq] at h
                obtain ⟨h1, _⟩ := h
                subst h1
                rcases List.mem_cons.mp hnm with h | h
                · exact ⟨seg, List.mem_cons_self _ _, h⟩
                · obtain ⟨i, hi, hni⟩ := ih (c - 1) d tr2 hrl nm h
                  exact ⟨i, List.mem_cons_of_mem _ hi, hni⟩

/-- C8 counterexample: with `maxSegments = 2` and a directory holding two
junk files (`aa`, `bb`) and ONE segment file, the claim says junk is not
counted, so 1 segment file < 2 means no deletion; the code counts all
three files, triggers retention, and deletes the lone segment file. -/
theorem c8_junk_counted_counterexample :
    (processOldSegments okEnv 2 [['a', 'a'], ['b', 'b'], natSegName 5]).1 =
      .ok [natSegName 5] := by decide

/-- C8 (amended): names without the recognized prefix are excluded from
the descriptor list and never deleted, and a recognized-prefix name with
a non-numeric suffix causes segment enumeration to fail with a parse
error; but non-prefix files are NOT excluded from the retention
arithmetic — both the `len(segments) < maxSegments` no-op test and the
deletion count run over all files in the directory, junk included. -/
theorem c8_junk_never_deleted_but_counted :
    (∀ (env : Env) (maxSeg : Int) (names : List (List Char)),
       ((names.length : Int) < maxSeg) →
       processOldSegments env maxSeg names = (.ok [], [])) ∧
    (∀ (maxSeg : Int) (names deleted : List (List Char)) (tr : List FsOp),
       processOldSegments okEnv maxSeg names = (.ok deleted, tr) →
       ∀ nm ∈ deleted, segFilePre.isPrefixOf nm = true ∧ nm ∈ names) ∧
    (∀ (env : Env) (maxSeg : Int) (names : List (List Char)) (bad : List Char),
       ¬ ((names.length : Int) < maxSeg) →
       bad ∈ names → segFilePre.isPrefixOf bad = true →
       parseInt10 (replaceAll bad segFilePre []) = none →
       processOldSegments env maxSeg names = (.error .parseError, [])) := by
  refine ⟨?_, ?_, ?_⟩
  · intro env maxSeg names h
    rw [processOldSegments, if_pos h]
  · intro maxSeg names deleted tr h nm hnm
    rw [processOldSegments] at h
    by_cases hc : ((names.length : Int) < maxSeg)
    · rw [if_pos hc] at h
      simp only [Prod.mk.injEq, Except.ok.injEq] at h
      obtain ⟨h1, _⟩ := h
      subst h1
      simp at hnm
    · rw [if_neg hc, deleteOldSegments] at h
      cases hg : getSegmentInfos names with
      | none => rw [hg] at h; simp at h
      | some infos =>
          rw [hg] at h
          obtain ⟨i, hi, hni⟩ :=
            removeLoop_deleted_sub okEnv maxSeg _ _ _ _ h nm hnm
          have hi2 : i ∈ infos := mem_sortByTs i _ hi
          obtain ⟨hpre, hmemn⟩ := getSegmentInfos_mem names infos hg i hi2
          exact ⟨hni ▸ hpre, hni ▸ hmemn⟩
  · intro env maxSeg names bad hcount hmem hpre hparse
    rw [processOldSegments, if_neg hcount, deleteOldSegments,
      getSegmentInfos_none names bad hmem hpre hparse]

/-- C8 witness: the amended claim's three cases at concrete directories:
a below-threshold no-op, a deleted name that does carry the prefix, and a
prefix-but-non-numeric name aborting with the parse error. -/
theorem c8_junk_never_deleted_but_counted_witness :
    processOldSegments okEnv 5 [['a']] = (.ok [], []) ∧
    (segFilePre.isPrefixOf (natSegName 7) = true ∧
      natSegName 7 ∈ [['j'], natSegName 7]) ∧
    processOldSegments okEnv 1 [segFilePre ++ ['x']] =
      (.error .parseError, []) := by
  have h := c8_junk_never_deleted_but_counted
  refine ⟨h.1 okEnv 5 [['a']] (by decide), ?_,
    h.2.2 okEnv 1 [segFilePre ++ ['x']] (segFilePre ++ ['x'])
      (by decide) (by decide) (by decide) (by decide)⟩
  exact h.2.1 2 [['j'], natSegName 7] [natSegName 7]
    [FsOp.remove (natSegName 7)] (by decide) (natSegName 7) (by decide)

end TinyWal
